import Mathlib

/-!
Verification of the arithmetic-expression evaluator embedded in
`Projects/cpp/calculator/calculator_app.cpp` of the BoredAF repository.

The evaluator is a recursive-descent parser over an `std::istringstream`:
`parse_add_sub` handles `+`/`-`, `parse_mul_div` handles `*`/`/`, and
`parse_number` skips whitespace, handles parenthesized sub-expressions and
reads numeric literals with `in >> val` (C++ `num_get` double extraction).
Errors are thrown as `std::runtime_error` with one of three messages and
caught in `evaluate_expression`.

Modelling choices:
* the input stream is a `List Char`; each parsing function takes the
  remaining input and returns the value together with the remaining input,
  mirroring the stream cursor;
* numeric values are exact rationals (`ℚ`) standing in for C++ `double`;
  the claims under consideration only involve values where double
  arithmetic is exact;
* the mutual recursion of the C++ parser is made structural with a fuel
  parameter; `none` means the fuel ran out, which never happens for the
  fuel budget used by `evaluateL` (the budget grows linearly in the number
  of non-space characters while every recursion step consumes input);
* `in >> val` is modelled in two phases exactly as C++ stream extraction
  works: a greedy accumulation of characters that may form part of a
  floating-point literal (stage 2 of `num_get`), then a strict conversion
  of the accumulated field which fails — setting `failbit` — unless the
  whole field is a valid decimal floating-point literal. The `skipws`
  whitespace skip performed by `in >> val` itself is a no-op here because
  `parse_number` has already skipped whitespace before calling it.
-/

set_option maxRecDepth 8000

namespace Calculator

/-- The three `std::runtime_error` messages thrown by the parser in
`calculator_app.cpp`. -/
inductive ParseError where
  | divisionByZero
  | mismatchedParentheses
  | invalidNumber
  deriving DecidableEq, Repr

/-- The `what()` string of each thrown `std::runtime_error`. -/
def ParseError.message : ParseError → String
  | .divisionByZero => "Division by zero"
  | .mismatchedParentheses => "Mismatched parentheses"
  | .invalidNumber => "Invalid number"

/-- The characters accepted by C `isspace` in the default locale, as used
by the `while (isspace(in.peek())) in.get();` loop in `parse_number`. -/
def isSpaceChar (c : Char) : Bool :=
  c = ' ' || c = '\t' || c = '\n' || c = '\x0b' || c = '\x0c' || c = '\r'

/-- The whitespace-skipping loop at the start of `parse_number`. -/
def skipSpaces : List Char → List Char
  | [] => []
  | c :: s => if isSpaceChar c then skipSpaces s else c :: s

/-- Numeric value of a string of decimal digits (most significant first). -/
def digitsNat (ds : List Char) : ℕ :=
  ds.foldl (fun a c => 10 * a + (c.toNat - '0'.toNat)) 0

/-- Stage-2 accumulation of C++ `num_get` double extraction, after the
optional leading sign: characters are taken greedily as long as they may
form part of a decimal floating-point literal.  A digit is always taken; a
decimal point is taken unless one was already seen or the exponent has
started; `e`/`E` starts the exponent when a mantissa digit has been seen
and no exponent was started yet; a sign is taken only immediately after
the `e`/`E` (tracked by `afterE`).  Returns the accumulated field and the
rest of the input. -/
def accumFloat (seenDot seenE seenDigit afterE : Bool) : List Char → List Char × List Char
  | [] => ([], [])
  | c :: s =>
    if c.isDigit then
      let p := accumFloat seenDot seenE true false s
      (c :: p.1, p.2)
    else if c = '.' ∧ seenDot = false ∧ seenE = false then
      let p := accumFloat true seenE seenDigit false s
      (c :: p.1, p.2)
    else if (c = 'e' ∨ c = 'E') ∧ seenDigit = true ∧ seenE = false then
      let p := accumFloat seenDot true seenDigit true s
      (c :: p.1, p.2)
    else if (c = '+' ∨ c = '-') ∧ afterE = true then
      let p := accumFloat seenDot seenE seenDigit false s
      (c :: p.1, p.2)
    else ([], c :: s)

/-- Stage-2 accumulation including the optional leading sign. -/
def scanField : List Char → List Char × List Char
  | [] => ([], [])
  | c :: s =>
    if c = '+' ∨ c = '-' then
      let p := accumFloat false false false false s
      (c :: p.1, p.2)
    else accumFloat false false false false (c :: s)

/-- Split an optional leading sign off the mantissa of the accumulated
field, yielding the sign as a rational factor. -/
def splitSignQ : List Char → ℚ × List Char
  | [] => (1, [])
  | c :: t => if c = '+' then (1, t) else if c = '-' then (-1, t) else (1, c :: t)

/-- Split an optional leading sign off the exponent digits of the
accumulated field, yielding the sign as an integer factor. -/
def splitSignZ : List Char → ℤ × List Char
  | [] => (1, [])
  | c :: t => if c = '+' then (1, t) else if c = '-' then (-1, t) else (1, c :: t)

/-- Stage-3 conversion of the exponent part of the accumulated field:
either the field ends after the mantissa, or an `e`/`E`, an optional sign
and at least one digit follow and make up the whole rest of the field;
anything else fails the conversion. -/
def parseExp (m : ℚ) : List Char → Option ℚ
  | [] => some m
  | e :: t =>
    if e = 'e' ∨ e = 'E' then
      let st := splitSignZ t
      let ed := st.2.takeWhile Char.isDigit
      if ed.length = 0 ∨ st.2.dropWhile Char.isDigit ≠ [] then none
      else some (m * (10 : ℚ) ^ (st.1 * (digitsNat ed : ℤ)))
    else none

/-- Stage-3 conversion of the accumulated field: the whole field must be a
valid decimal floating-point literal (optional sign, digits with at most
one decimal point and at least one digit, optional exponent with at least
one digit); otherwise the extraction fails (`failbit`). -/
def parseField (f : List Char) : Option ℚ :=
  let sf := splitSignQ f
  let ip := sf.2.takeWhile Char.isDigit
  match sf.2.dropWhile Char.isDigit with
  | [] =>
    if ip.length = 0 then none
    else parseExp (sf.1 * (digitsNat ip : ℚ)) []
  | c :: t =>
    if c = '.' then
      let fp := t.takeWhile Char.isDigit
      if ip.length + fp.length = 0 then none
      else parseExp (sf.1 * ((digitsNat ip : ℚ) + (digitsNat fp : ℚ) / 10 ^ fp.length))
             (t.dropWhile Char.isDigit)
    else
      if ip.length = 0 then none
      else parseExp (sf.1 * (digitsNat ip : ℚ)) (c :: t)

/-- The `in >> val` double extraction: stage-2 accumulation followed by
stage-3 conversion.  On success, returns the value and the remaining
input; `none` models `failbit` being set. -/
def scanNumber (s : List Char) : Option (ℚ × List Char) :=
  let p := scanField s
  match parseField p.1 with
  | some v => some (v, p.2)
  | none => none

/-- Result of a parsing function: `none` models fuel exhaustion (which the
C++ code has no counterpart of — its recursion always terminates), `some
(.error e)` models a thrown `std::runtime_error`, and `some (.ok (v, rest))`
models a normal return with value `v` and stream position `rest`. -/
abbrev PResult := Option (Except ParseError (ℚ × List Char))

mutual

/-- `parse_add_sub`: parse a `mul_div`, then fold further `+`/`-` terms. -/
def parse_add_sub : ℕ → List Char → PResult
  | 0, _ => none
  | f + 1, s =>
    match parse_mul_div f s with
    | none => none
    | some (.error e) => some (.error e)
    | some (.ok (left, rest)) => addSubLoop f left rest

/-- The `while (true)` loop of `parse_add_sub`: peek an operator; on `+`
or `-` consume it, parse the right `mul_div` operand and continue with the
updated accumulator; otherwise return the accumulator. -/
def addSubLoop : ℕ → ℚ → List Char → PResult
  | 0, _, _ => none
  | f + 1, acc, s =>
    match s with
    | [] => some (.ok (acc, []))
    | c :: s' =>
      if c = '+' ∨ c = '-' then
        match parse_mul_div f s' with
        | none => none
        | some (.error e) => some (.error e)
        | some (.ok (right, rest)) =>
          addSubLoop f (if c = '+' then acc + right else acc - right) rest
      else some (.ok (acc, s))

/-- `parse_mul_div`: parse a number/atom, then fold further `*`/`/`
factors. -/
def parse_mul_div : ℕ → List Char → PResult
  | 0, _ => none
  | f + 1, s =>
    match parse_number f s with
    | none => none
    | some (.error e) => some (.error e)
    | some (.ok (left, rest)) => mulDivLoop f left rest

/-- The `while (true)` loop of `parse_mul_div`: peek an operator; on `*`
or `/` consume it and parse the right operand with `parse_number`; a right
operand equal to zero under `/` throws "Division by zero" before the
division is computed; otherwise update the accumulator and continue. -/
def mulDivLoop : ℕ → ℚ → List Char → PResult
  | 0, _, _ => none
  | f + 1, acc, s =>
    match s with
    | [] => some (.ok (acc, []))
    | c :: s' =>
      if c = '*' ∨ c = '/' then
        match parse_number f s' with
        | none => none
        | some (.error e) => some (.error e)
        | some (.ok (right, rest)) =>
          if c = '*' then mulDivLoop f (acc * right) rest
          else if right = 0 then some (.error .divisionByZero)
          else mulDivLoop f (acc / right) rest
      else some (.ok (acc, s))

/-- `parse_number`: skip whitespace; on `(` recurse into `parse_add_sub`
and require the very next character to be `)` (otherwise throw
"Mismatched parentheses"; reaching the end of input, where `in.get()`
returns `EOF`, throws as well); otherwise extract a double with
`in >> val`, throwing "Invalid number" when the extraction fails. -/
def parse_number : ℕ → List Char → PResult
  | 0, _ => none
  | f + 1, s =>
    match skipSpaces s with
    | [] =>
      match scanNumber [] with
      | some (v, r) => some (.ok (v, r))
      | none => some (.error .invalidNumber)
    | c :: t =>
      if c = '(' then
        match parse_add_sub f t with
        | none => none
        | some (.error e) => some (.error e)
        | some (.ok (v, r)) =>
          match r with
          | [] => some (.error .mismatchedParentheses)
          | c2 :: r' =>
            if c2 = ')' then some (.ok (v, r'))
            else some (.error .mismatchedParentheses)
      else
        match scanNumber (c :: t) with
        | some (v, r) => some (.ok (v, r))
        | none => some (.error .invalidNumber)

end

/-- Fuel budget used to run the parser: every recursion step of the C++
parser either consumes a non-space input character or moves down the fixed
three-level grammar, so a budget linear in the number of non-space
characters suffices.  It is a function of the non-space characters only,
so that inserting whitespace never changes the budget. -/
def fuelFor (s : List Char) : ℕ :=
  4 * (s.filter (fun c => !isSpaceChar c)).length + 8

/-- `parse_expression` on a character list: run the top-level
`parse_add_sub` on the whole input.  No check is made that the input was
fully consumed, exactly as in the C++ code. -/
def parseExprL (s : List Char) : PResult :=
  parse_add_sub (fuelFor s) s

/-- `evaluate` on a character list: the value of the top-level
`parse_add_sub`, discarding the final stream position, or the thrown
error. -/
def evaluateL (s : List Char) : Option (Except ParseError ℚ) :=
  match parseExprL s with
  | none => none
  | some (.error e) => some (.error e)
  | some (.ok (v, _)) => some (.ok v)

/-- `evaluate` on a string, as called with the text of the entry widget. -/
def evaluate (s : String) : Option (Except ParseError ℚ) :=
  evaluateL s.data

/-- The caller-visible outcome of `evaluate_expression(expr, result,
error)`: the returned `bool` and the final contents of the caller's
`result` and `error` variables. -/
structure EvalOutcome where
  returned : Bool
  result : ℚ
  error : String
  deriving DecidableEq, Repr

/-- `evaluate_expression`: try `parse_expression`; on success store the
value in `result` and return `true` (leaving `error` unchanged); on a
thrown error store `e.what()` in `error` and return `false`, leaving
`result` unchanged. -/
def evaluate_expression (expr : String) (result0 : ℚ) (error0 : String) :
    Option EvalOutcome :=
  match parseExprL expr.data with
  | none => none
  | some (.ok (v, _)) => some ⟨true, v, error0⟩
  | some (.error e) => some ⟨false, result0, e.message⟩

/-- A character that cannot extend a numeric field in any stage-2 state
that is not immediately after an `e`/`E`: not a digit, not a decimal
point, not an exponent letter. -/
def numStop (c : Char) : Prop :=
  c.isDigit = false ∧ c ≠ '.' ∧ c ≠ 'e' ∧ c ≠ 'E'

/-- The input either ends or continues with a character that stops the
numeric scan. -/
def atomStop : List Char → Prop
  | [] => True
  | c :: _ => numStop c

/-- The input either ends or continues with a character other than the
two additive operator characters, so the `add_sub` loop stops. -/
def addStop : List Char → Prop
  | [] => True
  | c :: _ => c ≠ '+' ∧ c ≠ '-'

/-- The input either ends or continues with a character other than the
two multiplicative operator characters, so the `mul_div` loop stops. -/
def mulStop : List Char → Prop
  | [] => True
  | c :: _ => c ≠ '*' ∧ c ≠ '/'

/-- Application of one of the four binary operators, as performed inside
the parsing loops. -/
def applyOp (op : Char) (a b : ℚ) : ℚ :=
  if op = '+' then a + b
  else if op = '-' then a - b
  else if op = '*' then a * b
  else a / b

/-- The textual tail of an operator chain: for each pair `(op, lit)` the
operator character followed by the literal's characters. -/
def chainTail (L : List (Char × List Char)) : List Char :=
  L.foldr (fun p acc => p.1 :: (p.2 ++ acc)) []

/-- Left-to-right evaluation of an operator chain starting from `v0`:
exactly the accumulator discipline of the two parsing loops. -/
def chainVal (v0 : ℚ) (L : List (Char × List Char)) : ℚ :=
  L.foldl (fun acc p => applyOp p.1 acc (digitsNat p.2 : ℚ)) v0

/-- A well-formed additive chain: every operator is `+` or `-` and every
operand is a nonempty digit literal. -/
def addChainOk (L : List (Char × List Char)) : Prop :=
  ∀ p ∈ L, (p.1 = '+' ∨ p.1 = '-') ∧ p.2 ≠ [] ∧ ∀ c ∈ p.2, c.isDigit = true

/-- A well-formed multiplicative chain: every operator is `*` or `/`,
every operand is a nonempty digit literal, and every divisor is
nonzero (otherwise the loop throws "Division by zero"). -/
def mulChainOk (L : List (Char × List Char)) : Prop :=
  ∀ p ∈ L, (p.1 = '*' ∨ p.1 = '/') ∧ p.2 ≠ [] ∧ (∀ c ∈ p.2, c.isDigit = true) ∧
    (p.1 = '/' → (digitsNat p.2 : ℚ) ≠ 0)

/-- A numeric literal as the grammar defines it: a digit string, or
digits with a single decimal point. -/
inductive NumLit where
  | int (ds : List Char)
  | dec (ip fp : List Char)

/-- The characters making up a literal. -/
def NumLit.text : NumLit → List Char
  | .int ds => ds
  | .dec ip fp => ip ++ '.' :: fp

/-- The value a literal denotes. -/
def NumLit.val : NumLit → ℚ
  | .int ds => (digitsNat ds : ℚ)
  | .dec ip fp => (digitsNat ip : ℚ) + (digitsNat fp : ℚ) / 10 ^ fp.length

/-- Well-formedness of a literal: digit characters only and at least one
digit overall. -/
def NumLit.Ok : NumLit → Prop
  | .int ds => ds ≠ [] ∧ ∀ c ∈ ds, c.isDigit = true
  | .dec ip fp => (∀ c ∈ ip, c.isDigit = true) ∧ (∀ c ∈ fp, c.isDigit = true) ∧
      (ip ≠ [] ∨ fp ≠ [])

end Calculator

deriving instance DecidableEq for Except

namespace Calculator

theorem isSpaceChar_elim {c : Char} (h : isSpaceChar c = true) :
    c = ' ' ∨ c = '\t' ∨ c = '\n' ∨ c = '\x0b' ∨ c = '\x0c' ∨ c = '\r' := by
  have h' := h
  simp only [isSpaceChar, Bool.or_eq_true, decide_eq_true_eq] at h'
  tauto

theorem digit_not_space {c : Char} (h : c.isDigit = true) : isSpaceChar c = false := by
  cases hs : isSpaceChar c with
  | false => rfl
  | true => rcases isSpaceChar_elim hs with rfl | rfl | rfl | rfl | rfl | rfl <;>
      exact absurd h (by decide)

theorem digit_ne {c : Char} (h : c.isDigit = true) :
    c ≠ '(' ∧ c ≠ ')' ∧ c ≠ '+' ∧ c ≠ '-' ∧ c ≠ '*' ∧ c ≠ '/' ∧
    c ≠ '.' ∧ c ≠ 'e' ∧ c ≠ 'E' := by
  refine ⟨?_, ?_, ?_, ?_, ?_, ?_, ?_, ?_, ?_⟩ <;> (rintro rfl; exact absurd h (by decide))

theorem space_ne {c : Char} (h : isSpaceChar c = true) :
    c ≠ '(' ∧ c ≠ ')' ∧ c ≠ '+' ∧ c ≠ '-' ∧ c ≠ '*' ∧ c ≠ '/' := by
  rcases isSpaceChar_elim h with rfl | rfl | rfl | rfl | rfl | rfl <;>
    exact ⟨by decide, by decide, by decide, by decide, by decide, by decide⟩

theorem space_numStop {c : Char} (h : isSpaceChar c = true) : numStop c := by
  rcases isSpaceChar_elim h with rfl | rfl | rfl | rfl | rfl | rfl <;>
    exact ⟨by decide, by decide, by decide, by decide⟩

theorem skipSpaces_nospace {c : Char} (h : isSpaceChar c = false) (s : List Char) :
    skipSpaces (c :: s) = c :: s := by
  simp [skipSpaces, h]

theorem skipSpaces_ws {ws : List Char} (h : ∀ c ∈ ws, isSpaceChar c = true)
    (s : List Char) : skipSpaces (ws ++ s) = skipSpaces s := by
  induction ws with
  | nil => rfl
  | cons c t ih =>
    have hc : isSpaceChar c = true := h c (by simp)
    simp only [List.cons_append, skipSpaces, hc, if_true]
    exact ih (fun d hd => h d (by simp [hd]))

theorem takeWhile_all {p : Char → Bool} {l : List Char} (h : ∀ c ∈ l, p c = true) :
    l.takeWhile p = l ∧ l.dropWhile p = [] := by
  induction l with
  | nil => exact ⟨rfl, rfl⟩
  | cons c t ih =>
    have hc : p c = true := h c (by simp)
    have ht := ih (fun d hd => h d (by simp [hd]))
    simp [List.takeWhile_cons, List.dropWhile_cons, hc, ht.1, ht.2]

theorem takeWhile_stop {p : Char → Bool} {xs : List Char} {y : Char} (ys : List Char)
    (hx : ∀ c ∈ xs, p c = true) (hy : p y = false) :
    (xs ++ y :: ys).takeWhile p = xs ∧ (xs ++ y :: ys).dropWhile p = y :: ys := by
  induction xs with
  | nil => simp [List.takeWhile_cons, List.dropWhile_cons, hy]
  | cons c t ih =>
    have hc : p c = true := hx c (by simp)
    have ht := ih (fun d hd => hx d (by simp [hd]))
    simp [List.takeWhile_cons, List.dropWhile_cons, hc, ht.1, ht.2]

theorem accumFloat_stop {c : Char} (h : numStop c) (a b sd : Bool) (s : List Char) :
    accumFloat a b sd false (c :: s) = ([], c :: s) := by
  obtain ⟨h1, h2, h3, h4⟩ := h
  simp [accumFloat, h1, h2, h3, h4]

theorem accumFloat_digits {ds : List Char} (hds : ∀ c ∈ ds, c.isDigit = true)
    (rest : List Char) (hstop : atomStop rest) :
    ∀ (a b sd ae : Bool), (ds = [] → ae = false) →
      accumFloat a b sd ae (ds ++ rest) = (ds, rest) := by
  induction ds with
  | nil =>
    intro a b sd ae hae
    have hae' := hae rfl
    subst hae'
    cases rest with
    | nil => rfl
    | cons c s =>
      have hc : numStop c := hstop
      exact accumFloat_stop hc a b sd s
  | cons d t ih =>
    intro a b sd ae _
    have hd : d.isDigit = true := hds d (by simp)
    have ht := ih (fun c hc => hds c (by simp [hc])) a b true false (fun _ => rfl)
    simp [accumFloat, hd, ht]

theorem accumFloat_cons_digit {c : Char} (hd : c.isDigit = true)
    (a b sd ae : Bool) (s : List Char) :
    accumFloat a b sd ae (c :: s) =
      (c :: (accumFloat a b true false s).1, (accumFloat a b true false s).2) := by
  simp [accumFloat, hd]

theorem accumFloat_digits_cont (ds : List Char) (hne : ds ≠ [])
    (hds : ∀ c ∈ ds, c.isDigit = true) (r : List Char) (a b : Bool) :
    ∀ (sd ae : Bool),
      accumFloat a b sd ae (ds ++ r) =
        (ds ++ (accumFloat a b true false r).1, (accumFloat a b true false r).2) := by
  induction ds with
  | nil => exact absurd rfl hne
  | cons d t ih =>
    intro sd ae
    have hd : d.isDigit = true := hds d (by simp)
    rw [List.cons_append, accumFloat_cons_digit hd]
    cases t with
    | nil => simp
    | cons d2 t2 =>
      have ht := ih (by simp) (fun c hc => hds c (by simp [hc])) true false
      rw [ht]
      simp

theorem scanField_digits {ds : List Char} (hne : ds ≠ [])
    (hds : ∀ c ∈ ds, c.isDigit = true) {rest : List Char} (hstop : atomStop rest) :
    scanField (ds ++ rest) = (ds, rest) := by
  cases ds with
  | nil => exact absurd rfl hne
  | cons d t =>
    have hd : d.isDigit = true := hds d (by simp)
    have hn := digit_ne hd
    have h := accumFloat_digits hds rest hstop false false false false (fun h => rfl)
    simp only [List.cons_append] at h
    simp [scanField, hn.2.2.1, hn.2.2.2.1, h]

theorem scanField_sign {c : Char} (hc : c = '+' ∨ c = '-') {ds : List Char}
    (hds : ∀ c ∈ ds, c.isDigit = true) (rest : List Char) (hstop : atomStop rest) :
    scanField (c :: (ds ++ rest)) = (c :: ds, rest) := by
  have h := accumFloat_digits hds rest hstop false false false false (fun _ => rfl)
  simp [scanField, hc, h]

theorem scanField_decimal {ip fp : List Char} (hip : ∀ c ∈ ip, c.isDigit = true)
    (hfp : ∀ c ∈ fp, c.isDigit = true) (rest : List Char) (hstop : atomStop rest) :
    scanField (ip ++ '.' :: (fp ++ rest)) = (ip ++ '.' :: fp, rest) := by
  have hdot : accumFloat false false true false ('.' :: (fp ++ rest)) =
      ('.' :: fp, rest) := by
    have h := accumFloat_digits hfp rest hstop true false true false (fun _ => rfl)
    simp [accumFloat, h]
  cases ip with
  | nil =>
    have h := accumFloat_digits hfp rest hstop true false false false (fun _ => rfl)
    simp [scanField, accumFloat, h]
  | cons i t =>
    have hd : i.isDigit = true := hip i (by simp)
    have hn := digit_ne hd
    have hcont := accumFloat_digits_cont (i :: t) (by simp) hip ('.' :: (fp ++ rest))
      false false false false
    simp only [List.cons_append, hdot] at hcont
    simp [scanField, hn.2.2.1, hn.2.2.2.1, hcont]

theorem scanField_exp {ds es : List Char} (hdne : ds ≠ [])
    (hds : ∀ c ∈ ds, c.isDigit = true) (hene : es ≠ [])
    (hes : ∀ c ∈ es, c.isDigit = true) :
    scanField (ds ++ 'e' :: es) = (ds ++ 'e' :: es, []) := by
  have hexp : accumFloat false false true false ('e' :: es) = ('e' :: es, []) := by
    have h := accumFloat_digits hes [] trivial false true true true
      (fun h => absurd h hene)
    simp at h
    simp [accumFloat, h]
  cases ds with
  | nil => exact absurd rfl hdne
  | cons d t =>
    have hd : d.isDigit = true := hds d (by simp)
    have hn := digit_ne hd
    have hcont := accumFloat_digits_cont (d :: t) (by simp) hds ('e' :: es)
      false false false false
    simp only [List.cons_append, hexp] at hcont
    simp [scanField, hn.2.2.1, hn.2.2.2.1, hcont]

theorem splitSignQ_nosign {c : Char} (h1 : c ≠ '+') (h2 : c ≠ '-') (t : List Char) :
    splitSignQ (c :: t) = (1, c :: t) := by
  simp [splitSignQ, h1, h2]

theorem splitSignZ_nosign {c : Char} (h1 : c ≠ '+') (h2 : c ≠ '-') (t : List Char) :
    splitSignZ (c :: t) = (1, c :: t) := by
  simp [splitSignZ, h1, h2]

theorem parseField_digits {ds : List Char} (hne : ds ≠ [])
    (hds : ∀ c ∈ ds, c.isDigit = true) : parseField ds = some (digitsNat ds : ℚ) := by
  cases ds with
  | nil => exact absurd rfl hne
  | cons d t =>
    have hd : d.isDigit = true := hds d (by simp)
    have hn := digit_ne hd
    have h1 := splitSignQ_nosign hn.2.2.1 hn.2.2.2.1 t
    have h2 := takeWhile_all (p := Char.isDigit) hds
    simp [parseField, h1, h2.1, h2.2, parseExp]

theorem parseField_neg {ds : List Char} (hne : ds ≠ [])
    (hds : ∀ c ∈ ds, c.isDigit = true) :
    parseField ('-' :: ds) = some (-(digitsNat ds : ℚ)) := by
  have h2 := takeWhile_all (p := Char.isDigit) hds
  have hlen : ds.length ≠ 0 := by
    simpa [List.length_eq_zero] using hne
  simp [parseField, splitSignQ, h2.1, h2.2, parseExp, hlen]

theorem parseField_decimal {ip fp : List Char} (hip : ∀ c ∈ ip, c.isDigit = true)
    (hfp : ∀ c ∈ fp, c.isDigit = true) (hne : ip ≠ [] ∨ fp ≠ []) :
    parseField (ip ++ '.' :: fp) =
      some ((digitsNat ip : ℚ) + (digitsNat fp : ℚ) / 10 ^ fp.length) := by
  have hsplit : splitSignQ (ip ++ '.' :: fp) = (1, ip ++ '.' :: fp) := by
    cases ip with
    | nil => simpa using splitSignQ_nosign (by decide) (by decide) fp
    | cons i t =>
      have hn := digit_ne (hip i (by simp))
      simpa using splitSignQ_nosign hn.2.2.1 hn.2.2.2.1 (t ++ '.' :: fp)
  have htw := takeWhile_stop (p := Char.isDigit) (y := '.') fp hip (by decide)
  have hfp' := takeWhile_all (p := Char.isDigit) hfp
  have hlen : ip.length + fp.length ≠ 0 := by
    rcases hne with h | h <;> simp [List.length_eq_zero] <;> tauto
  simp [parseField, hsplit, htw.1, htw.2, hfp'.1, hfp'.2, hlen, parseExp]

theorem parseField_exp {ds es : List Char} (hdne : ds ≠ [])
    (hds : ∀ c ∈ ds, c.isDigit = true) (hene : es ≠ [])
    (hes : ∀ c ∈ es, c.isDigit = true) :
    parseField (ds ++ 'e' :: es) =
      some ((digitsNat ds : ℚ) * 10 ^ (digitsNat es)) := by
  have hsplit : splitSignQ (ds ++ 'e' :: es) = (1, ds ++ 'e' :: es) := by
    cases ds with
    | nil => exact absurd rfl hdne
    | cons i t =>
      have hn := digit_ne (hds i (by simp))
      simpa using splitSignQ_nosign hn.2.2.1 hn.2.2.2.1 (t ++ 'e' :: es)
  have htw := takeWhile_stop (p := Char.isDigit) (y := 'e') es hds (by decide)
  have hes' := takeWhile_all (p := Char.isDigit) hes
  have hlen : ds.length ≠ 0 := by simpa [List.length_eq_zero] using hdne
  have helen : es.length ≠ 0 := by simpa [List.length_eq_zero] using hene
  have hz : splitSignZ es = (1, es) := by
    cases es with
    | nil => exact absurd rfl hene
    | cons i t =>
      have hn := digit_ne (hes i (by simp))
      exact splitSignZ_nosign hn.2.2.1 hn.2.2.2.1 t
  simp [parseField, hsplit, htw.1, htw.2, hlen, parseExp, hz, hes'.1, hes'.2, helen,
    zpow_natCast]

theorem scanNumber_digits {ds : List Char} (hne : ds ≠ [])
    (hds : ∀ c ∈ ds, c.isDigit = true) {rest : List Char} (hstop : atomStop rest) :
    scanNumber (ds ++ rest) = some ((digitsNat ds : ℚ), rest) := by
  simp [scanNumber, scanField_digits hne hds hstop, parseField_digits hne hds]

theorem scanNumber_neg {ds : List Char} (hne : ds ≠ [])
    (hds : ∀ c ∈ ds, c.isDigit = true) :
    scanNumber ('-' :: ds) = some (-(digitsNat ds : ℚ), []) := by
  have h := scanField_sign (Or.inr rfl) hds [] trivial
  simp at h
  simp [scanNumber, h, parseField_neg hne hds]

theorem scanNumber_decimal {ip fp : List Char} (hip : ∀ c ∈ ip, c.isDigit = true)
    (hfp : ∀ c ∈ fp, c.isDigit = true) (hne : ip ≠ [] ∨ fp ≠ [])
    (rest : List Char) (hstop : atomStop rest) :
    scanNumber (ip ++ '.' :: (fp ++ rest)) =
      some ((digitsNat ip : ℚ) + (digitsNat fp : ℚ) / 10 ^ fp.length, rest) := by
  simp [scanNumber, scanField_decimal hip hfp rest hstop,
    parseField_decimal hip hfp hne]

theorem scanNumber_exp {ds es : List Char} (hdne : ds ≠ [])
    (hds : ∀ c ∈ ds, c.isDigit = true) (hene : es ≠ [])
    (hes : ∀ c ∈ es, c.isDigit = true) :
    scanNumber (ds ++ 'e' :: es) =
      some ((digitsNat ds : ℚ) * 10 ^ (digitsNat es), []) := by
  simp [scanNumber, scanField_exp hdne hds hene hes, parseField_exp hdne hds hene hes]

theorem parse_number_scan {s t : List Char} {c : Char} (hskip : skipSpaces s = c :: t)
    (hpar : c ≠ '(') {v : ℚ} {r : List Char} (hscan : scanNumber (c :: t) = some (v, r))
    (f : ℕ) : parse_number (f + 1) s = some (.ok (v, r)) := by
  simp [parse_number, hskip, hpar, hscan]

theorem parse_number_fail {s : List Char} (h1 : (skipSpaces s).head? ≠ some '(')
    (h2 : scanNumber (skipSpaces s) = none) (f : ℕ) :
    parse_number (f + 1) s = some (.error .invalidNumber) := by
  cases hs : skipSpaces s with
  | nil =>
    rw [hs] at h2
    simp [parse_number, hs, h2]
  | cons c t =>
    rw [hs] at h1 h2
    have hc : c ≠ '(' := by simpa using h1
    simp [parse_number, hs, hc, h2]

theorem parse_number_paren_ok {u r' : List Char} {v : ℚ} {f : ℕ}
    (h : parse_add_sub f u = some (.ok (v, ')' :: r'))) :
    parse_number (f + 1) ('(' :: u) = some (.ok (v, r')) := by
  have hskip : skipSpaces ('(' :: u) = '(' :: u := skipSpaces_nospace (by decide) u
  simp [parse_number, hskip, h]

theorem parse_number_paren_eof {u : List Char} {v : ℚ} {f : ℕ}
    (h : parse_add_sub f u = some (.ok (v, []))) :
    parse_number (f + 1) ('(' :: u) = some (.error .mismatchedParentheses) := by
  have hskip : skipSpaces ('(' :: u) = '(' :: u := skipSpaces_nospace (by decide) u
  simp [parse_number, hskip, h]

theorem parse_number_paren_bad {u r' : List Char} {c : Char} {v : ℚ} {f : ℕ}
    (h : parse_add_sub f u = some (.ok (v, c :: r'))) (hc : c ≠ ')') :
    parse_number (f + 1) ('(' :: u) = some (.error .mismatchedParentheses) := by
  have hskip : skipSpaces ('(' :: u) = '(' :: u := skipSpaces_nospace (by decide) u
  simp [parse_number, hskip, h, hc]

theorem addSubLoop_stop {s : List Char} (h : addStop s) (f : ℕ) (acc : ℚ) :
    addSubLoop (f + 1) acc s = some (.ok (acc, s)) := by
  cases s with
  | nil => simp [addSubLoop]
  | cons c t =>
    have h' : c ≠ '+' ∧ c ≠ '-' := h
    simp [addSubLoop, h'.1, h'.2]

theorem mulDivLoop_stop {s : List Char} (h : mulStop s) (f : ℕ) (acc : ℚ) :
    mulDivLoop (f + 1) acc s = some (.ok (acc, s)) := by
  cases s with
  | nil => simp [mulDivLoop]
  | cons c t =>
    have h' : c ≠ '*' ∧ c ≠ '/' := h
    simp [mulDivLoop, h'.1, h'.2]

theorem parse_number_digits {ds : List Char} (hne : ds ≠ [])
    (hds : ∀ c ∈ ds, c.isDigit = true) (rest : List Char) (hstop : atomStop rest)
    (f : ℕ) : parse_number (f + 1) (ds ++ rest) = some (.ok ((digitsNat ds : ℚ), rest)) := by
  cases ds with
  | nil => exact absurd rfl hne
  | cons d t =>
    have hd : d.isDigit = true := hds d (by simp)
    have hskip : skipSpaces ((d :: t) ++ rest) = d :: (t ++ rest) := by
      rw [List.cons_append]
      exact skipSpaces_nospace (digit_not_space hd) _
    have hscan : scanNumber (d :: (t ++ rest)) = some ((digitsNat (d :: t) : ℚ), rest) := by
      have h := scanNumber_digits hne hds hstop
      simpa [List.cons_append] using h
    exact parse_number_scan hskip (digit_ne hd).1 hscan f

theorem parse_mul_div_digits {ds : List Char} (hne : ds ≠ [])
    (hds : ∀ c ∈ ds, c.isDigit = true) {rest : List Char} (hstop : atomStop rest)
    (hmul : mulStop rest) (f : ℕ) :
    parse_mul_div (f + 1 + 1) (ds ++ rest) = some (.ok ((digitsNat ds : ℚ), rest)) := by
  simp [parse_mul_div, parse_number_digits hne hds rest hstop f, mulDivLoop_stop hmul]

theorem parse_add_sub_digits {ds : List Char} (hne : ds ≠ [])
    (hds : ∀ c ∈ ds, c.isDigit = true) {rest : List Char} (hstop : atomStop rest)
    (hmul : mulStop rest) (hadd : addStop rest) (f : ℕ) :
    parse_add_sub (f + 1 + 1 + 1) (ds ++ rest) = some (.ok ((digitsNat ds : ℚ), rest)) := by
  simp [parse_add_sub, parse_mul_div_digits hne hds hstop hmul f, addSubLoop_stop hadd]

theorem parse_add_sub_step {f : ℕ} {s rest : List Char} {left : ℚ}
    (hpm : parse_mul_div f s = some (.ok (left, rest))) :
    parse_add_sub (f + 1) s = addSubLoop f left rest := by
  simp only [parse_add_sub]
  rw [hpm]

theorem parse_mul_div_step {f : ℕ} {s rest : List Char} {left : ℚ}
    (hpn : parse_number f s = some (.ok (left, rest))) :
    parse_mul_div (f + 1) s = mulDivLoop f left rest := by
  simp only [parse_mul_div]
  rw [hpn]

theorem addSubLoop_step {c : Char} (hc : c = '+' ∨ c = '-') {f : ℕ}
    {s' rest : List Char} {right : ℚ}
    (hpm : parse_mul_div f s' = some (.ok (right, rest))) (acc : ℚ) :
    addSubLoop (f + 1) acc (c :: s') =
      addSubLoop f (if c = '+' then acc + right else acc - right) rest := by
  simp only [addSubLoop]
  rw [if_pos hc, hpm]

theorem mulDivLoop_step_mul {f : ℕ} {s' rest : List Char} {right : ℚ}
    (hpn : parse_number f s' = some (.ok (right, rest))) (acc : ℚ) :
    mulDivLoop (f + 1) acc ('*' :: s') = mulDivLoop f (acc * right) rest := by
  simp only [mulDivLoop]
  simp [hpn]

theorem mulDivLoop_step_div {f : ℕ} {s' rest : List Char} {right : ℚ}
    (hpn : parse_number f s' = some (.ok (right, rest))) (hz : right ≠ 0) (acc : ℚ) :
    mulDivLoop (f + 1) acc ('/' :: s') = mulDivLoop f (acc / right) rest := by
  simp only [mulDivLoop]
  simp [hpn, hz]

theorem mulDivLoop_step_div0 {f : ℕ} {s' rest : List Char}
    (hpn : parse_number f s' = some (.ok (0, rest))) (acc : ℚ) :
    mulDivLoop (f + 1) acc ('/' :: s') = some (.error .divisionByZero) := by
  simp only [mulDivLoop]
  simp [hpn]

theorem parse_number_ws {ws : List Char} (h : ∀ c ∈ ws, isSpaceChar c = true)
    (f : ℕ) (s : List Char) : parse_number f (ws ++ s) = parse_number f s := by
  cases f with
  | zero => rfl
  | succ f => simp only [parse_number, skipSpaces_ws h s]

theorem parse_mul_div_ws {ws : List Char} (h : ∀ c ∈ ws, isSpaceChar c = true)
    (f : ℕ) (s : List Char) : parse_mul_div f (ws ++ s) = parse_mul_div f s := by
  cases f with
  | zero => rfl
  | succ f => simp only [parse_mul_div, parse_number_ws h f s]

theorem parse_add_sub_ws {ws : List Char} (h : ∀ c ∈ ws, isSpaceChar c = true)
    (f : ℕ) (s : List Char) : parse_add_sub f (ws ++ s) = parse_add_sub f s := by
  cases f with
  | zero => rfl
  | succ f => simp only [parse_add_sub, parse_mul_div_ws h f s]

theorem fuelFor_ws {ws : List Char} (h : ∀ c ∈ ws, isSpaceChar c = true)
    (s : List Char) : fuelFor (ws ++ s) = fuelFor s := by
  have hnil : ws.filter (fun c => !isSpaceChar c) = [] :=
    List.filter_eq_nil_iff.mpr (fun c hc => by simp [h c hc])
  simp [fuelFor, List.filter_append, hnil]

theorem evaluateL_ws {ws : List Char} (h : ∀ c ∈ ws, isSpaceChar c = true)
    (s : List Char) : evaluateL (ws ++ s) = evaluateL s := by
  simp only [evaluateL, parseExprL, fuelFor_ws h s, parse_add_sub_ws h]

theorem chainTail_cons (p : Char × List Char) (L : List (Char × List Char)) :
    chainTail (p :: L) = p.1 :: (p.2 ++ chainTail L) := rfl

theorem chainVal_cons (v0 : ℚ) (p : Char × List Char) (L : List (Char × List Char)) :
    chainVal v0 (p :: L) = chainVal (applyOp p.1 v0 (digitsNat p.2 : ℚ)) L := rfl

theorem chainTail_len (L : List (Char × List Char)) :
    L.length ≤ (chainTail L).length := by
  induction L with
  | nil => simp [chainTail]
  | cons p L' ih =>
    rw [chainTail_cons]
    simp only [List.length_cons, List.length_append]
    omega

theorem chainTail_nonspace {L : List (Char × List Char)}
    (h : ∀ p ∈ L, isSpaceChar p.1 = false ∧ ∀ c ∈ p.2, c.isDigit = true) :
    ∀ c ∈ chainTail L, isSpaceChar c = false := by
  induction L with
  | nil => simp [chainTail]
  | cons p L' ih =>
    intro c hc
    rw [chainTail_cons] at hc
    rcases List.mem_cons.1 hc with rfl | hc'
    · exact (h p (by simp)).1
    · rcases List.mem_append.1 hc' with h2 | h2
      · exact digit_not_space ((h p (by simp)).2 c h2)
      · exact ih (fun q hq => h q (by simp [hq])) c h2

theorem addChain_stops {L : List (Char × List Char)} (h : addChainOk L) :
    atomStop (chainTail L) ∧ mulStop (chainTail L) := by
  cases L with
  | nil => exact ⟨trivial, trivial⟩
  | cons p L' =>
    rcases (h p (by simp)).1 with h1 | h1 <;>
      (rw [chainTail_cons, h1];
       exact ⟨⟨by decide, by decide, by decide, by decide⟩, by decide, by decide⟩)

theorem mulChain_stops {L : List (Char × List Char)} (h : mulChainOk L) :
    atomStop (chainTail L) ∧ addStop (chainTail L) := by
  cases L with
  | nil => exact ⟨trivial, trivial⟩
  | cons p L' =>
    rcases (h p (by simp)).1 with h1 | h1 <;>
      (rw [chainTail_cons, h1];
       exact ⟨⟨by decide, by decide, by decide, by decide⟩, by decide, by decide⟩)

theorem addSubLoop_chain :
    ∀ (L : List (Char × List Char)), addChainOk L → ∀ (f : ℕ) (acc : ℚ),
      addSubLoop (f + L.length + 3) acc (chainTail L) =
        some (.ok (chainVal acc L, [])) := by
  intro L
  induction L with
  | nil =>
    intro _ f acc
    have e : f + ([] : List (Char × List Char)).length + 3 = (f + 2) + 1 := by simp
    rw [e]
    exact addSubLoop_stop (s := []) trivial (f + 2) acc
  | cons p L' ih =>
    intro h f acc
    obtain ⟨hop, hne, hds⟩ := h p (by simp)
    have hL' : addChainOk L' := fun q hq => h q (by simp [hq])
    have hstops := addChain_stops hL'
    have e : f + (p :: L').length + 3 = (f + L'.length + 3) + 1 := by
      simp only [List.length_cons]
      omega
    rw [e, chainTail_cons]
    simp only [addSubLoop]
    rw [if_pos hop]
    have hpm : parse_mul_div (f + L'.length + 3) (p.2 ++ chainTail L') =
        some (.ok ((digitsNat p.2 : ℚ), chainTail L')) := by
      have e2 : f + L'.length + 3 = (f + L'.length + 1) + 1 + 1 := by omega
      rw [e2]
      exact parse_mul_div_digits hne hds hstops.1 hstops.2 (f + L'.length + 1)
    rw [hpm]
    rw [chainVal_cons]
    rcases hop with h1 | h1 <;> rw [h1] <;> simp only [applyOp] <;> simp <;>
      exact ih hL' f _

theorem mulDivLoop_chain :
    ∀ (L : List (Char × List Char)), mulChainOk L → ∀ (f : ℕ) (acc : ℚ),
      mulDivLoop (f + L.length + 2) acc (chainTail L) =
        some (.ok (chainVal acc L, [])) := by
  intro L
  induction L with
  | nil =>
    intro _ f acc
    have e : f + ([] : List (Char × List Char)).length + 2 = (f + 1) + 1 := by simp
    rw [e]
    exact mulDivLoop_stop (s := []) trivial (f + 1) acc
  | cons p L' ih =>
    intro h f acc
    obtain ⟨hop, hne, hds, hdiv⟩ := h p (by simp)
    have hL' : mulChainOk L' := fun q hq => h q (by simp [hq])
    have hstops := mulChain_stops hL'
    have e : f + (p :: L').length + 2 = (f + L'.length + 2) + 1 := by
      simp only [List.length_cons]
      omega
    rw [e, chainTail_cons]
    simp only [mulDivLoop]
    rw [if_pos hop]
    have hpn : parse_number (f + L'.length + 2) (p.2 ++ chainTail L') =
        some (.ok ((digitsNat p.2 : ℚ), chainTail L')) := by
      have e2 : f + L'.length + 2 = (f + L'.length + 1) + 1 := by omega
      rw [e2]
      exact parse_number_digits hne hds (chainTail L') hstops.1 (f + L'.length + 1)
    rw [hpn]
    rw [chainVal_cons]
    rcases hop with h1 | h1
    · rw [h1]
      simp only [applyOp]
      simp
      exact ih hL' f _
    · rw [h1]
      have hz : ¬((digitsNat p.2 : ℚ) = 0) := hdiv h1
      simp only [applyOp]
      simp [hz]
      exact ih hL' f _

theorem parse_add_sub_addChain {d0 : List Char} (h0ne : d0 ≠ [])
    (h0 : ∀ c ∈ d0, c.isDigit = true) {L : List (Char × List Char)}
    (h : addChainOk L) (f : ℕ) :
    parse_add_sub (f + L.length + 5) (d0 ++ chainTail L) =
      some (.ok (chainVal (digitsNat d0 : ℚ) L, [])) := by
  have hstops := addChain_stops h
  have e : f + L.length + 5 = (f + L.length + 4) + 1 := by omega
  rw [e]
  simp only [parse_add_sub]
  have hpm : parse_mul_div (f + L.length + 4) (d0 ++ chainTail L) =
      some (.ok ((digitsNat d0 : ℚ), chainTail L)) := by
    have e2 : f + L.length + 4 = (f + L.length + 2) + 1 + 1 := by omega
    rw [e2]
    exact parse_mul_div_digits h0ne h0 hstops.1 hstops.2 (f + L.length + 2)
  rw [hpm]
  have e3 : f + L.length + 4 = (f + 1) + L.length + 3 := by omega
  rw [e3]
  exact addSubLoop_chain L h (f + 1) _

theorem parse_add_sub_mulChain {d0 : List Char} (h0ne : d0 ≠ [])
    (h0 : ∀ c ∈ d0, c.isDigit = true) {L : List (Char × List Char)}
    (h : mulChainOk L) (f : ℕ) :
    parse_add_sub (f + L.length + 5) (d0 ++ chainTail L) =
      some (.ok (chainVal (digitsNat d0 : ℚ) L, [])) := by
  have hstops := mulChain_stops h
  have e : f + L.length + 5 = (f + L.length + 4) + 1 := by omega
  rw [e]
  simp only [parse_add_sub]
  have hpm : parse_mul_div (f + L.length + 4) (d0 ++ chainTail L) =
      some (.ok (chainVal (digitsNat d0 : ℚ) L, [])) := by
    have e2 : f + L.length + 4 = (f + L.length + 3) + 1 := by omega
    rw [e2]
    simp only [parse_mul_div]
    have hpn : parse_number (f + L.length + 3) (d0 ++ chainTail L) =
        some (.ok ((digitsNat d0 : ℚ), chainTail L)) := by
      have e3 : f + L.length + 3 = (f + L.length + 2) + 1 := by omega
      rw [e3]
      exact parse_number_digits h0ne h0 (chainTail L) hstops.1 (f + L.length + 2)
    rw [hpn]
    have e4 : f + L.length + 3 = (f + 1) + L.length + 2 := by omega
    rw [e4]
    exact mulDivLoop_chain L h (f + 1) _
  rw [hpm]
  have e5 : f + L.length + 4 = (f + L.length + 3) + 1 := by omega
  rw [e5]
  exact addSubLoop_stop (s := []) trivial (f + L.length + 3) _

theorem fuelFor_nonspace {s : List Char} (h : ∀ c ∈ s, isSpaceChar c = false) :
    fuelFor s = 4 * s.length + 8 := by
  have hself : s.filter (fun c => !isSpaceChar c) = s :=
    List.filter_eq_self.mpr (fun c hc => by simp [h c hc])
  simp [fuelFor, hself]

theorem addChain_nonspace {L : List (Char × List Char)} (h : addChainOk L) :
    ∀ c ∈ chainTail L, isSpaceChar c = false := by
  refine chainTail_nonspace (fun p hp => ⟨?_, (h p hp).2.2⟩)
  rcases (h p hp).1 with h1 | h1 <;> rw [h1] <;> decide

theorem mulChain_nonspace {L : List (Char × List Char)} (h : mulChainOk L) :
    ∀ c ∈ chainTail L, isSpaceChar c = false := by
  refine chainTail_nonspace (fun p hp => ⟨?_, (h p hp).2.2.1⟩)
  rcases (h p hp).1 with h1 | h1 <;> rw [h1] <;> decide

theorem evaluateL_addChain {d0 : List Char} (h0ne : d0 ≠ [])
    (h0 : ∀ c ∈ d0, c.isDigit = true) {L : List (Char × List Char)}
    (h : addChainOk L) :
    evaluateL (d0 ++ chainTail L) = some (.ok (chainVal (digitsNat d0 : ℚ) L)) := by
  have hns : ∀ c ∈ d0 ++ chainTail L, isSpaceChar c = false := by
    intro c hc
    rcases List.mem_append.1 hc with h2 | h2
    · exact digit_not_space (h0 c h2)
    · exact addChain_nonspace h c h2
  have hlen := chainTail_len L
  have hge : L.length + 5 ≤ fuelFor (d0 ++ chainTail L) := by
    rw [fuelFor_nonspace hns]
    simp only [List.length_append]
    omega
  obtain ⟨g, hg⟩ : ∃ g, fuelFor (d0 ++ chainTail L) = g + L.length + 5 :=
    ⟨fuelFor (d0 ++ chainTail L) - (L.length + 5), by omega⟩
  have hps := parse_add_sub_addChain h0ne h0 h g
  simp [evaluateL, parseExprL, hg, hps]

theorem evaluateL_mulChain {d0 : List Char} (h0ne : d0 ≠ [])
    (h0 : ∀ c ∈ d0, c.isDigit = true) {L : List (Char × List Char)}
    (h : mulChainOk L) :
    evaluateL (d0 ++ chainTail L) = some (.ok (chainVal (digitsNat d0 : ℚ) L)) := by
  have hns : ∀ c ∈ d0 ++ chainTail L, isSpaceChar c = false := by
    intro c hc
    rcases List.mem_append.1 hc with h2 | h2
    · exact digit_not_space (h0 c h2)
    · exact mulChain_nonspace h c h2
  have hlen := chainTail_len L
  have hge : L.length + 5 ≤ fuelFor (d0 ++ chainTail L) := by
    rw [fuelFor_nonspace hns]
    simp only [List.length_append]
    omega
  obtain ⟨g, hg⟩ : ∃ g, fuelFor (d0 ++ chainTail L) = g + L.length + 5 :=
    ⟨fuelFor (d0 ++ chainTail L) - (L.length + 5), by omega⟩
  have hps := parse_add_sub_mulChain h0ne h0 h g
  simp [evaluateL, parseExprL, hg, hps]

theorem parse_add_sub_atom {s : List Char} {v : ℚ}
    (hpn : ∀ f, parse_number (f + 1) s = some (.ok (v, []))) (f : ℕ) :
    parse_add_sub (f + 1 + 1 + 1) s = some (.ok (v, [])) := by
  have hm : parse_mul_div (f + 1 + 1) s = some (.ok (v, [])) := by
    rw [parse_mul_div_step (hpn f)]
    exact mulDivLoop_stop (s := []) trivial f v
  rw [parse_add_sub_step hm]
  exact addSubLoop_stop (s := []) trivial (f + 1) v

theorem evaluateL_atom {s : List Char} {v : ℚ}
    (hpn : ∀ f, parse_number (f + 1) s = some (.ok (v, []))) :
    evaluateL s = some (.ok v) := by
  have h3 : 3 ≤ fuelFor s := by
    unfold fuelFor
    omega
  obtain ⟨g, hg⟩ : ∃ g, fuelFor s = g + 1 + 1 + 1 := ⟨fuelFor s - 3, by omega⟩
  have hps := parse_add_sub_atom hpn g
  simp [evaluateL, parseExprL, hg, hps]

theorem parse_number_intLit {ds : List Char} (hne : ds ≠ [])
    (hds : ∀ c ∈ ds, c.isDigit = true) (f : ℕ) :
    parse_number (f + 1) ds = some (.ok ((digitsNat ds : ℚ), [])) := by
  have h := parse_number_digits hne hds [] trivial f
  simpa using h

theorem parse_number_decLit {ip fp : List Char} (hip : ∀ c ∈ ip, c.isDigit = true)
    (hfp : ∀ c ∈ fp, c.isDigit = true) (hne : ip ≠ [] ∨ fp ≠ [])
    (rest : List Char) (hstop : atomStop rest) (f : ℕ) :
    parse_number (f + 1) (ip ++ '.' :: (fp ++ rest)) =
      some (.ok ((digitsNat ip : ℚ) + (digitsNat fp : ℚ) / 10 ^ fp.length, rest)) := by
  have hscan := scanNumber_decimal hip hfp hne rest hstop
  cases ip with
  | nil =>
    simp only [List.nil_append] at hscan ⊢
    exact parse_number_scan (skipSpaces_nospace (by decide) (fp ++ rest)) (by decide)
      hscan f
  | cons i t =>
    have hd : i.isDigit = true := hip i (by simp)
    simp only [List.cons_append] at hscan ⊢
    exact parse_number_scan (skipSpaces_nospace (digit_not_space hd) _)
      (digit_ne hd).1 hscan f

theorem parse_number_lit {a : NumLit} (ha : a.Ok) (rest : List Char)
    (hstop : atomStop rest) (f : ℕ) :
    parse_number (f + 1) (a.text ++ rest) = some (.ok (a.val, rest)) := by
  cases a with
  | int ds =>
    have h := parse_number_digits ha.1 ha.2 rest hstop f
    simpa [NumLit.text, NumLit.val] using h
  | dec ip fp =>
    have h := parse_number_decLit ha.1 ha.2.1 ha.2.2 rest hstop f
    simpa [NumLit.text, NumLit.val, List.append_assoc] using h

theorem parse_number_negLit {ds : List Char} (hne : ds ≠ [])
    (hds : ∀ c ∈ ds, c.isDigit = true) (f : ℕ) :
    parse_number (f + 1) ('-' :: ds) = some (.ok (-(digitsNat ds : ℚ), [])) := by
  exact parse_number_scan (skipSpaces_nospace (by decide) ds) (by decide)
    (scanNumber_neg hne hds) f

theorem parse_number_expLit {ds es : List Char} (hdne : ds ≠ []) (hene : es ≠ [])
    (hds : ∀ c ∈ ds, c.isDigit = true) (hes : ∀ c ∈ es, c.isDigit = true) (f : ℕ) :
    parse_number (f + 1) (ds ++ 'e' :: es) =
      some (.ok ((digitsNat ds : ℚ) * 10 ^ digitsNat es, [])) := by
  have hscan := scanNumber_exp hdne hds hene hes
  cases ds with
  | nil => exact absurd rfl hdne
  | cons d t =>
    have hd : d.isDigit = true := hds d (by simp)
    simp only [List.cons_append] at hscan ⊢
    exact parse_number_scan (skipSpaces_nospace (digit_not_space hd) _)
      (digit_ne hd).1 hscan f

end Calculator

namespace Calculator

section ClaimTheorems

attribute [local semireducible] Rat.mul Rat.add Rat.sub Rat.inv

/-- C1: Multiplication binds tighter than addition and parentheses
override that precedence: `evaluate "2+2*3"` succeeds with 8 and
`evaluate "(2+2)*3"` succeeds with 12; more generally, for all numeric
literals `a`, `b`, `c` (digit strings with an optional single decimal
point), evaluating the string `a+b*c` yields the value `a + (b * c)`. -/
theorem claim_C1 :
    evaluate "2+2*3" = some (.ok 8) ∧
    evaluate "(2+2)*3" = some (.ok 12) ∧
    ∀ a b c : NumLit, a.Ok → b.Ok → c.Ok →
      evaluateL (a.text ++ '+' :: (b.text ++ '*' :: c.text)) =
        some (.ok (a.val + b.val * c.val)) := by
  refine ⟨by decide, by decide, ?_⟩
  intro a b c ha hb hc
  have hpc : ∀ f, parse_number (f + 1) c.text = some (.ok (c.val, [])) := by
    intro f
    have h := parse_number_lit hc [] trivial f
    simpa using h
  have hpb : ∀ f, parse_number (f + 1) (b.text ++ '*' :: c.text) =
      some (.ok (b.val, '*' :: c.text)) :=
    fun f => parse_number_lit hb ('*' :: c.text)
      ⟨by decide, by decide, by decide, by decide⟩ f
  have hpa : ∀ f, parse_number (f + 1) (a.text ++ '+' :: (b.text ++ '*' :: c.text)) =
      some (.ok (a.val, '+' :: (b.text ++ '*' :: c.text))) :=
    fun f => parse_number_lit ha ('+' :: (b.text ++ '*' :: c.text))
      ⟨by decide, by decide, by decide, by decide⟩ f
  have h7 : 7 ≤ fuelFor (a.text ++ '+' :: (b.text ++ '*' :: c.text)) := by
    unfold fuelFor
    omega
  obtain ⟨g, hg⟩ :
      ∃ g, fuelFor (a.text ++ '+' :: (b.text ++ '*' :: c.text)) =
        g + 1 + 1 + 1 + 1 + 1 + 1 + 1 :=
    ⟨fuelFor (a.text ++ '+' :: (b.text ++ '*' :: c.text)) - 7, by omega⟩
  have hm2 : parse_mul_div (g + 1 + 1 + 1 + 1 + 1) (b.text ++ '*' :: c.text) =
      some (.ok (b.val * c.val, [])) := by
    rw [parse_mul_div_step (hpb (g + 1 + 1 + 1))]
    rw [mulDivLoop_step_mul (hpc (g + 1 + 1))]
    exact mulDivLoop_stop (s := []) trivial (g + 1 + 1) _
  have hm1 : parse_mul_div (g + 1 + 1 + 1 + 1 + 1 + 1)
      (a.text ++ '+' :: (b.text ++ '*' :: c.text)) =
      some (.ok (a.val, '+' :: (b.text ++ '*' :: c.text))) := by
    rw [parse_mul_div_step (hpa (g + 1 + 1 + 1 + 1))]
    exact mulDivLoop_stop (s := '+' :: (b.text ++ '*' :: c.text))
      ⟨by decide, by decide⟩ (g + 1 + 1 + 1 + 1) _
  have hps : parse_add_sub (g + 1 + 1 + 1 + 1 + 1 + 1 + 1)
      (a.text ++ '+' :: (b.text ++ '*' :: c.text)) =
      some (.ok (a.val + b.val * c.val, [])) := by
    rw [parse_add_sub_step hm1]
    rw [addSubLoop_step (Or.inl rfl) hm2]
    rw [if_pos rfl]
    exact addSubLoop_stop (s := []) trivial (g + 1 + 1 + 1 + 1) _
  simp [evaluateL, parseExprL, hg, hps]

/-- Witness for C1: the general part at the literals 1.5, 2 and 3:
`1.5+2*3` evaluates to `1.5 + 2 * 3`. -/
theorem claim_C1_witness :
    evaluateL ((NumLit.dec ['1'] ['5']).text ++
        '+' :: ((NumLit.int ['2']).text ++ '*' :: (NumLit.int ['3']).text)) =
      some (.ok ((NumLit.dec ['1'] ['5']).val +
        (NumLit.int ['2']).val * (NumLit.int ['3']).val)) :=
  claim_C1.2.2 (.dec ['1'] ['5']) (.int ['2']) (.int ['3'])
    ⟨by decide, by decide, by decide⟩ ⟨by decide, by decide⟩ ⟨by decide, by decide⟩

/-- C2: Operators at the same precedence level are strictly
left-associative: each loop applies the pending operator to its
accumulator as soon as the right operand is parsed, producing the
intermediate result before any further operator is consumed (the two step
conjuncts, for arbitrary operands); consequently an additive chain
`d0 op1 d1 ... opk dk` (all operators `+`/`-`, operands digit literals)
evaluates to the left fold, and likewise a multiplicative chain (divisors
nonzero); in particular `evaluate "10-2-3"` succeeds with 5, not 11. -/
theorem claim_C2 :
    evaluate "10-2-3" = some (.ok 5) ∧
    (∀ (c : Char) (f : ℕ) (acc right : ℚ) (s' rest : List Char),
      (c = '+' ∨ c = '-') → parse_mul_div f s' = some (.ok (right, rest)) →
      addSubLoop (f + 1) acc (c :: s') = addSubLoop f (applyOp c acc right) rest) ∧
    (∀ (c : Char) (f : ℕ) (acc right : ℚ) (s' rest : List Char),
      (c = '*' ∨ c = '/') → parse_number f s' = some (.ok (right, rest)) →
      (c = '/' → right ≠ 0) →
      mulDivLoop (f + 1) acc (c :: s') = mulDivLoop f (applyOp c acc right) rest) ∧
    (∀ (d0 : List Char) (L : List (Char × List Char)), d0 ≠ [] →
      (∀ c ∈ d0, c.isDigit = true) → addChainOk L →
      evaluateL (d0 ++ chainTail L) = some (.ok (chainVal (digitsNat d0 : ℚ) L))) ∧
    (∀ (d0 : List Char) (L : List (Char × List Char)), d0 ≠ [] →
      (∀ c ∈ d0, c.isDigit = true) → mulChainOk L →
      evaluateL (d0 ++ chainTail L) = some (.ok (chainVal (digitsNat d0 : ℚ) L))) := by
  refine ⟨by decide, ?_, ?_,
    fun _ _ h0 h1 h2 => evaluateL_addChain h0 h1 h2,
    fun _ _ h0 h1 h2 => evaluateL_mulChain h0 h1 h2⟩
  · intro c f acc right s' rest hc hpm
    rcases hc with rfl | rfl
    · rw [addSubLoop_step (Or.inl rfl) hpm]
      simp [applyOp]
    · rw [addSubLoop_step (Or.inr rfl) hpm]
      simp [applyOp]
  · intro c f acc right s' rest hc hpn hz
    rcases hc with rfl | rfl
    · rw [mulDivLoop_step_mul hpn]
      simp [applyOp]
    · rw [mulDivLoop_step_div hpn (hz rfl)]
      simp [applyOp]

/-- Witness for C2: the chain `10-2-3` through the general additive-chain
part (value `(10 - 2) - 3 = 5`), and the chain `8/2/2` through the general
multiplicative-chain part (value `(8 / 2) / 2 = 2`). -/
theorem claim_C2_witness :
    evaluateL (['1', '0'] ++ chainTail [('-', ['2']), ('-', ['3'])]) =
      some (.ok (chainVal (digitsNat ['1', '0'] : ℚ)
        [('-', ['2']), ('-', ['3'])])) ∧
    evaluateL (['8'] ++ chainTail [('/', ['2']), ('/', ['2'])]) =
      some (.ok (chainVal (digitsNat ['8'] : ℚ) [('/', ['2']), ('/', ['2'])])) :=
  ⟨claim_C2.2.2.2.1 ['1', '0'] [('-', ['2']), ('-', ['3'])] (by decide) (by decide)
      (by unfold addChainOk; decide),
    claim_C2.2.2.2.2 ['8'] [('/', ['2']), ('/', ['2'])] (by decide) (by decide)
      (by unfold mulChainOk; decide)⟩

/-- C3: Whitespace is skipped only immediately before reading an atom:
prepending whitespace to the input of `parse_number` (the atom reader)
never changes its result, and likewise for a whole expression (whose first
atom follows); but a whitespace character sitting directly before a `+`,
`-`, `*` or `/` operator stops the operator loops at that point, and a
whitespace character directly before a closing parenthesis makes the
parenthesis check fail. -/
theorem claim_C3 :
    (∀ (ws s : List Char) (f : ℕ), (∀ c ∈ ws, isSpaceChar c = true) →
      parse_number f (ws ++ s) = parse_number f s) ∧
    (∀ (ws s : List Char), (∀ c ∈ ws, isSpaceChar c = true) →
      evaluateL (ws ++ s) = evaluateL s) ∧
    (∀ (c : Char) (s : List Char) (f : ℕ) (acc : ℚ), isSpaceChar c = true →
      addSubLoop (f + 1) acc (c :: s) = some (.ok (acc, c :: s))) ∧
    (∀ (c : Char) (s : List Char) (f : ℕ) (acc : ℚ), isSpaceChar c = true →
      mulDivLoop (f + 1) acc (c :: s) = some (.ok (acc, c :: s))) ∧
    (∀ (u r' : List Char) (c : Char) (v : ℚ) (f : ℕ), isSpaceChar c = true →
      parse_add_sub f u = some (.ok (v, c :: r')) →
      parse_number (f + 1) ('(' :: u) = some (.error .mismatchedParentheses)) := by
  refine ⟨fun ws s f h => parse_number_ws h f s,
    fun ws s h => evaluateL_ws h s, ?_, ?_, ?_⟩
  · intro c s f acc h
    have hn := space_ne h
    exact addSubLoop_stop (s := c :: s) ⟨hn.2.2.1, hn.2.2.2.1⟩ f acc
  · intro c s f acc h
    have hn := space_ne h
    exact mulDivLoop_stop (s := c :: s) ⟨hn.2.2.2.2.1, hn.2.2.2.2.2⟩ f acc
  · intro u r' c v f h hp
    exact parse_number_paren_bad hp (space_ne h).2.1

/-- Witness for C3: a space before the atom `1` changes nothing; a space
before `+` stops the additive loop; a space before the closing parenthesis
of `(1 ` makes the parenthesis check fail. -/
theorem claim_C3_witness :
    parse_number 3 ([' '] ++ ['1']) = parse_number 3 ['1'] ∧
    evaluateL ([' '] ++ ['1']) = evaluateL ['1'] ∧
    addSubLoop (4 + 1) 1 (' ' :: ['+', '2']) = some (.ok (1, ' ' :: ['+', '2'])) ∧
    mulDivLoop (4 + 1) 1 (' ' :: ['*', '2']) = some (.ok (1, ' ' :: ['*', '2'])) ∧
    parse_number (5 + 1) ('(' :: ['1', ' ', ')']) =
      some (.error .mismatchedParentheses) :=
  ⟨claim_C3.1 [' '] ['1'] 3 (by decide),
    claim_C3.2.1 [' '] ['1'] (by decide),
    claim_C3.2.2.1 ' ' ['+', '2'] 4 1 (by decide),
    claim_C3.2.2.2.1 ' ' ['*', '2'] 4 1 (by decide),
    claim_C3.2.2.2.2 ['1', ' ', ')'] [')'] ' ' 1 5 (by decide) (by decide)⟩

/-- C4: A division whose right-hand operand (read by `parse_number`, so a
number or a parenthesized sub-expression) evaluates to exactly zero makes
the parser throw "Division by zero" before the division is computed; in
particular `evaluate "10/0"` (and `evaluate "10/(2-2)"`) fails with
DivisionByZero. -/
theorem claim_C4 :
    (∀ (f : ℕ) (acc : ℚ) (s' rest : List Char),
      parse_number f s' = some (.ok (0, rest)) →
      mulDivLoop (f + 1) acc ('/' :: s') = some (.error .divisionByZero)) ∧
    evaluate "10/0" = some (.error .divisionByZero) ∧
    evaluate "10/(2-2)" = some (.error .divisionByZero) ∧
    ParseError.divisionByZero.message = "Division by zero" :=
  ⟨fun _ acc _ _ h => mulDivLoop_step_div0 h acc, by decide, by decide, rfl⟩

/-- Witness for C4: dividing 10 by the zero literal `0` throws. -/
theorem claim_C4_witness :
    mulDivLoop (3 + 1) 10 ('/' :: ['0']) = some (.error .divisionByZero) :=
  claim_C4.1 3 10 ['0'] [] (by decide)

/-- C5: After `(` the parser recurses into `add_sub` and requires the very
next character to be `)`: if it is, the value is returned; if the input
ends or the next character differs, the parser throws
"Mismatched parentheses"; in particular `evaluate "(1+2"` fails with
MismatchedParentheses. -/
theorem claim_C5 :
    (∀ (u r' : List Char) (v : ℚ) (f : ℕ),
      parse_add_sub f u = some (.ok (v, ')' :: r')) →
      parse_number (f + 1) ('(' :: u) = some (.ok (v, r'))) ∧
    (∀ (u : List Char) (v : ℚ) (f : ℕ),
      parse_add_sub f u = some (.ok (v, [])) →
      parse_number (f + 1) ('(' :: u) = some (.error .mismatchedParentheses)) ∧
    (∀ (u r' : List Char) (c : Char) (v : ℚ) (f : ℕ), c ≠ ')' →
      parse_add_sub f u = some (.ok (v, c :: r')) →
      parse_number (f + 1) ('(' :: u) = some (.error .mismatchedParentheses)) ∧
    evaluate "(1+2" = some (.error .mismatchedParentheses) ∧
    ParseError.mismatchedParentheses.message = "Mismatched parentheses" :=
  ⟨fun _ _ _ _ h => parse_number_paren_ok h,
    fun _ _ _ h => parse_number_paren_eof h,
    fun _ _ _ _ _ hc h => parse_number_paren_bad h hc,
    by decide, rfl⟩

/-- Witness for C5: `(1)` returns 1 with the parenthesis consumed, `(1`
(input exhausted) and `(1x` (wrong character) throw. -/
theorem claim_C5_witness :
    parse_number (4 + 1) ('(' :: ['1', ')']) = some (.ok (1, [])) ∧
    parse_number (4 + 1) ('(' :: ['1']) = some (.error .mismatchedParentheses) ∧
    parse_number (4 + 1) ('(' :: ['1', 'x']) =
      some (.error .mismatchedParentheses) :=
  ⟨claim_C5.1 ['1', ')'] [] 1 4 (by decide),
    claim_C5.2.1 ['1'] 1 4 (by decide),
    claim_C5.2.2.1 ['1', 'x'] [] 'x' 1 4 (by decide) (by decide)⟩

/-- C6: Every error the evaluator can produce carries one of exactly three
messages — "Division by zero", "Mismatched parentheses", "Invalid number"
— and a token expected to be numeric whose extraction fails yields
"Invalid number". -/
theorem claim_C6 :
    (∀ (s : List Char) (e : ParseError), evaluateL s = some (.error e) →
      e.message = "Division by zero" ∨ e.message = "Mismatched parentheses" ∨
        e.message = "Invalid number") ∧
    (∀ (f : ℕ) (s : List Char), (skipSpaces s).head? ≠ some '(' →
      scanNumber (skipSpaces s) = none →
      parse_number (f + 1) s = some (.error .invalidNumber)) := by
  constructor
  · intro s e _
    cases e with
    | divisionByZero => exact Or.inl rfl
    | mismatchedParentheses => exact Or.inr (Or.inl rfl)
    | invalidNumber => exact Or.inr (Or.inr rfl)
  · intro f s h1 h2
    exact parse_number_fail h1 h2 f

/-- Witness for C6: `10/0` produces an error whose message is in the set,
and the non-numeric token `a` yields "Invalid number". -/
theorem claim_C6_witness :
    (ParseError.divisionByZero.message = "Division by zero" ∨
      ParseError.divisionByZero.message = "Mismatched parentheses" ∨
      ParseError.divisionByZero.message = "Invalid number") ∧
    parse_number (4 + 1) ['a'] = some (.error .invalidNumber) :=
  ⟨claim_C6.1 ['1', '0', '/', '0'] .divisionByZero (by decide),
    claim_C6.2 4 ['a'] (by decide) (by decide)⟩

/-- C7: Evaluation is atomic with a single error channel:
`evaluate_expression` either returns `true` with exactly the parsed value
stored in the caller's result variable (the error variable untouched), or
returns `false` with the single thrown error message stored in the error
variable and the caller's result variable left unchanged. -/
theorem claim_C7 :
    ∀ (expr : String) (result0 : ℚ) (error0 : String)
      (r : Except ParseError (ℚ × List Char)),
      parseExprL expr.data = some r →
      evaluate_expression expr result0 error0 =
        some (match r with
              | .ok (v, _) => ⟨true, v, error0⟩
              | .error e => ⟨false, result0, e.message⟩) := by
  intro expr r0 e0 r h
  cases r with
  | ok p => simp [evaluate_expression, h]
  | error e => simp [evaluate_expression, h]

/-- Witness for C7: on `10/0` the wrapper returns `false`, stores the
message and leaves the caller's result variable (here 7) unchanged. -/
theorem claim_C7_witness :
    evaluate_expression "10/0" 7 "x" = some ⟨false, 7, "Division by zero"⟩ :=
  claim_C7 "10/0" 7 "x" (.error .divisionByZero) (by decide)

/-- C8: A single numeric literal evaluates to exactly the value it
denotes: a nonempty digit string `ds` evaluates to its decimal value, and
a literal with a single decimal point `ip.fp` (at least one digit overall)
evaluates to `ip + fp / 10^|fp|`. -/
theorem claim_C8 :
    (∀ ds : List Char, ds ≠ [] → (∀ c ∈ ds, c.isDigit = true) →
      evaluateL ds = some (.ok (digitsNat ds : ℚ))) ∧
    (∀ ip fp : List Char, (∀ c ∈ ip, c.isDigit = true) →
      (∀ c ∈ fp, c.isDigit = true) → (ip ≠ [] ∨ fp ≠ []) →
      evaluateL (ip ++ '.' :: fp) =
        some (.ok ((digitsNat ip : ℚ) + (digitsNat fp : ℚ) / 10 ^ fp.length))) := by
  constructor
  · intro ds hne hds
    exact evaluateL_atom (parse_number_intLit hne hds)
  · intro ip fp hip hfp hne
    refine evaluateL_atom (fun f => ?_)
    have h := parse_number_decLit hip hfp hne [] trivial f
    simpa using h

/-- Witness for C8: `42` evaluates to 42 and `1.5` evaluates to
`1 + 5/10`. -/
theorem claim_C8_witness :
    evaluateL ['4', '2'] = some (.ok (digitsNat ['4', '2'] : ℚ)) ∧
    evaluateL (['1'] ++ '.' :: ['5']) =
      some (.ok ((digitsNat ['1'] : ℚ) +
        (digitsNat ['5'] : ℚ) / 10 ^ (['5'] : List Char).length)) :=
  ⟨claim_C8.1 ['4', '2'] (by decide) (by decide),
    claim_C8.2 ['1'] ['5'] (by decide) (by decide) (by decide)⟩

/-- C9: Trailing unconsumed input is silently ignored: whenever the
top-level `add_sub` succeeds on some prefix, `evaluate` succeeds with that
prefix's value no matter what characters remain; in particular
`evaluate "1+2)"` succeeds with 3 and `evaluate "1 + 2"` succeeds with 1
(the space before `+` stops operator consumption and ` + 2` is
discarded). -/
theorem claim_C9 :
    (∀ (s : List Char) (v : ℚ) (rest : List Char),
      parse_add_sub (fuelFor s) s = some (.ok (v, rest)) →
      evaluateL s = some (.ok v)) ∧
    evaluate "1+2)" = some (.ok 3) ∧
    evaluate "1 + 2" = some (.ok 1) := by
  refine ⟨?_, by decide, by decide⟩
  intro s v rest h
  simp [evaluateL, parseExprL, h]

/-- Witness for C9: on `1+2)` the top-level parse succeeds with value 3
and rest `)`, so evaluation succeeds with 3. -/
theorem claim_C9_witness :
    evaluateL ['1', '+', '2', ')'] = some (.ok 3) :=
  claim_C9.1 ['1', '+', '2', ')'] 3 [')'] (by decide)

/-- C10: The atom rule accepts every numeric token accepted by C++ stream
double extraction, not only unsigned digit/decimal strings: a leading
minus sign and an exponent part are consumed as part of the number, so
`evaluate "-3"` succeeds with -3 and `evaluate "2e2"` succeeds with 200,
and in general `-ds` evaluates to the negated value and `ds e es` to
`ds * 10^es`. -/
theorem claim_C10 :
    evaluate "-3" = some (.ok (-3)) ∧
    evaluate "2e2" = some (.ok 200) ∧
    (∀ ds : List Char, ds ≠ [] → (∀ c ∈ ds, c.isDigit = true) →
      evaluateL ('-' :: ds) = some (.ok (-(digitsNat ds : ℚ)))) ∧
    (∀ ds es : List Char, ds ≠ [] → es ≠ [] →
      (∀ c ∈ ds, c.isDigit = true) → (∀ c ∈ es, c.isDigit = true) →
      evaluateL (ds ++ 'e' :: es) =
        some (.ok ((digitsNat ds : ℚ) * 10 ^ digitsNat es))) := by
  refine ⟨by decide, by decide, ?_, ?_⟩
  · intro ds hne hds
    exact evaluateL_atom (parse_number_negLit hne hds)
  · intro ds es hdne hene hds hes
    exact evaluateL_atom (parse_number_expLit hdne hene hds hes)

/-- Witness for C10: `-7` evaluates to -7 and `2e1` to `2 * 10^1`. -/
theorem claim_C10_witness :
    evaluateL ('-' :: ['7']) = some (.ok (-(digitsNat ['7'] : ℚ))) ∧
    evaluateL (['2'] ++ 'e' :: ['1']) =
      some (.ok ((digitsNat ['2'] : ℚ) * 10 ^ digitsNat ['1'])) :=
  ⟨claim_C10.2.2.1 ['7'] (by decide) (by decide),
    claim_C10.2.2.2 ['2'] ['1'] (by decide) (by decide) (by decide) (by decide)⟩

end ClaimTheorems

end Calculator
